import Mathlib

/-!
Verification of the Excel-to-folium map generator (`assignment2.py`).

The script is shallowly embedded here:
* `parse_coordinate_string` is modelled over `PyVal` (a cell value: null/NaN,
  a string, or any other non-string value), with `json.loads` modelled by
  `jsonLoads` (a fuel-based recursive-descent JSON reader producing `JVal`)
  and Python's `float` modelled by `pyFloat`.  Numbers are exact rationals:
  both Python paths convert the same decimal text, so equalities between the
  two decodings are preserved by the rational model.  Exceptions are modelled
  as `Option.none`; the function's `try/except` turns `none` into `[]`.
* Each `add_*` layer builder maps its dataframe (an `Option (List _Row)`,
  `none` = sheet absent) to the list of folium elements it attaches to the
  map; `create_map_from_excel` composes them in the source's order.
* Fields the code guards with `pd.notna` (latitude/longitude everywhere,
  and the markers' description, icon and color) are modelled as `Option`:
  under those guards, and under `dropna`, a missing column and a blank
  (NaN) cell in a present column are observationally equal.  Fields read
  by an *unguarded* `row.get(col, default)` are modelled as `Cell`, which
  keeps the distinction pandas exposes there: `Series.get` returns the
  default only when the column is absent, and returns the stored NaN of a
  blank cell as-is, so the program passes `nan` through to folium
  (`PyAttr.nan` below).
-/

namespace Assignment2

/-! ## Character utilities -/

/-- The four whitespace characters skipped by Python's `json` scanner. -/
def isJsonWs (c : Char) : Bool :=
  c = ' ' || c = '\t' || c = '\n' || c = '\r'

/-- Whitespace for Python's `str.strip()` / `float()` (ASCII fragment). -/
def isPyWs (c : Char) : Bool :=
  c = ' ' || c = '\t' || c = '\n' || c = '\r' || c = '\x0b' || c = '\x0c'

/-- Drop leading characters satisfying `p`. -/
def dropLead (p : Char → Bool) : List Char → List Char
  | [] => []
  | c :: t => if p c then dropLead p t else c :: t

/-- Strip on both ends (used for `float()`'s argument). -/
def stripEnds (p : Char → Bool) (cs : List Char) : List Char :=
  ((dropLead p ((dropLead p cs).reverse)).reverse)

/-- Numeric value of a digit character. -/
def charVal (c : Char) : Nat := c.toNat - 48

/-- Value of a most-significant-first digit string. -/
def digitsVal (ds : List Char) : Nat :=
  ds.foldl (fun a c => 10 * a + charVal c) 0

/-- Split a character list into its maximal leading digit run and the rest. -/
def grabDigits : List Char → List Char × List Char
  | [] => ([], [])
  | c :: t =>
      if c.isDigit then
        let p := grabDigits t
        (c :: p.1, p.2)
      else ([], c :: t)

/-- Decimal digits of `n`, most significant first, via explicit fuel
    (`n < fuel` suffices, since `n / 10` shrinks). -/
def digitsOfAux : Nat → Nat → List Char
  | 0, _ => []
  | fuel + 1, n =>
      if n < 10 then [Nat.digitChar n]
      else digitsOfAux fuel (n / 10) ++ [Nat.digitChar (n % 10)]

/-- Decimal digits of `n`, most significant first (`"0"` for zero). -/
def digitsOf (n : Nat) : List Char := digitsOfAux (n + 1) n

/-- The canonical decimal rendering of an integer. -/
def renderInt (i : Int) : List Char :=
  if i < 0 then '-' :: digitsOf (-i).toNat else digitsOf i.toNat

/-- Join character groups with a single separator character. -/
def joinSep (sep : Char) : List (List Char) → List Char
  | [] => []
  | [g] => g
  | g :: gs => g ++ sep :: joinSep sep gs

/-- Split on a separator character; mirrors Python's `str.split(sep)`
    (`"".split(sep) == ['']`, empty groups preserved). -/
def splitOnChar (sep : Char) : List Char → List (List Char)
  | [] => [[]]
  | c :: t =>
      if c = sep then [] :: splitOnChar sep t
      else
        match splitOnChar sep t with
        | g :: gs => (c :: g) :: gs
        | [] => [[c]]

/-- Does the character occur? Mirrors Python's `sep in s`. -/
def hasChar (c : Char) : List Char → Bool
  | [] => false
  | d :: t => d = c || hasChar c t

/-! ## JSON values and `json.loads` -/

/-- A Python value produced by `json.loads`. -/
inductive JVal where
  | num (q : Rat)
  | str (s : String)
  | bool (b : Bool)
  | null
  | arr (elems : List JVal)
  | obj (members : List (String × JVal))

/-- Single-character JSON string escapes (`\uXXXX` is handled separately). -/
def jsonUnescape : Char → Option Char
  | '"' => some '"'
  | '\\' => some '\\'
  | '/' => some '/'
  | 'b' => some (Char.ofNat 8)
  | 'f' => some (Char.ofNat 12)
  | 'n' => some '\n'
  | 'r' => some '\r'
  | 't' => some '\t'
  | _ => none

/-- Hexadecimal digit value. -/
def hexDigitVal (c : Char) : Option Nat :=
  if '0' ≤ c && c ≤ '9' then some (c.toNat - 48)
  else if 'a' ≤ c && c ≤ 'f' then some (c.toNat - 87)
  else if 'A' ≤ c && c ≤ 'F' then some (c.toNat - 55)
  else none

/-- Body of a JSON string after its opening quote: characters up to the
    closing quote, decoding escapes.  (Surrogate-pair recombination of
    `\uXXXX` escapes is not modelled.) -/
def parseJStr : List Char → Option (List Char × List Char)
  | [] => none
  | '"' :: r => some ([], r)
  | '\\' :: 'u' :: a :: b :: c :: d :: r => do
      let va ← hexDigitVal a
      let vb ← hexDigitVal b
      let vc ← hexDigitVal c
      let vd ← hexDigitVal d
      let p ← parseJStr r
      some (Char.ofNat (((va * 16 + vb) * 16 + vc) * 16 + vd) :: p.1, p.2)
  | '\\' :: e :: r => do
      let ch ← jsonUnescape e
      let p ← parseJStr r
      some (ch :: p.1, p.2)
  | c :: r => do
      let p ← parseJStr r
      some (c :: p.1, p.2)

/-- Apply a leading-minus flag to a value. -/
def jSigned (neg : Bool) (v : Rat) : Rat := if neg then -v else v

/-- A leading `-` sign (JSON: no `+` on the mantissa). -/
def jSign : List Char → Bool × List Char
  | [] => (false, [])
  | c :: t => if c = '-' then (true, t) else (false, c :: t)

/-- An exponent's optional sign (`+` or `-`). -/
def expSign : List Char → Bool × List Char
  | [] => (false, [])
  | c :: t =>
      if c = '+' then (false, t)
      else if c = '-' then (true, t)
      else (false, c :: t)

/-- Exponent digits after `e`/`E` and its optional sign, scaling `signed`. -/
def jNumExpTail (signed : Rat) (t : List Char) : Option (Rat × List Char) :=
  match grabDigits (expSign t).2 with
  | ([], _) => none
  | (eds, r2) =>
      if (expSign t).1 then some (signed / ((10 : Rat) ^ digitsVal eds), r2)
      else some (signed * ((10 : Rat) ^ digitsVal eds), r2)

/-- The optional exponent of a JSON number. -/
def jNumExp (signed : Rat) : List Char → Option (Rat × List Char)
  | [] => some (signed, [])
  | c :: t =>
      if c = 'e' ∨ c = 'E' then jNumExpTail signed t
      else some (signed, c :: t)

/-- JSON number suffix: optional fraction (at least one digit) and optional
    exponent, applied to the already-read integer part `ip` with sign `neg`. -/
def jNumTail (neg : Bool) (ip : Nat) : List Char → Option (Rat × List Char)
  | [] => jNumExp (jSigned neg (ip : Rat)) []
  | c :: t =>
      if c = '.' then
        (match grabDigits t with
         | ([], _) => none
         | (fds, r) =>
             jNumExp (jSigned neg ((ip : Rat) + (digitsVal fds : Rat) / ((10 : Rat) ^ fds.length))) r)
      else jNumExp (jSigned neg (ip : Rat)) (c :: t)

/-- A JSON number after its optional sign: an integer part with no leading
    zero, then `jNumTail`. -/
def jNumBody (neg : Bool) : List Char → Option (Rat × List Char)
  | [] => none
  | c :: t =>
      if c = '0' then jNumTail neg 0 t
      else if c.isDigit then
        (match grabDigits (c :: t) with
         | (ds, r) => jNumTail neg (digitsVal ds) r)
      else none

/-- A JSON number: optional `-`, an integer part with no leading zero,
    optional fraction and exponent. -/
def parseJNum (cs : List Char) : Option (Rat × List Char) :=
  jNumBody (jSign cs).1 (jSign cs).2

/-- Consume an expected literal character sequence. -/
def dropLit : List Char → List Char → Option (List Char)
  | [], r => some r
  | l :: lt, c :: r => if c = l then dropLit lt r else none
  | _ :: _, [] => none

mutual

/-- One JSON value (model of the grammar accepted by `json.loads`); the
    fuel only bounds recursion and `2 * input length + 2` always suffices. -/
def parseJVal : Nat → List Char → Option (JVal × List Char)
  | 0, _ => none
  | fuel + 1, cs =>
      match dropLead isJsonWs cs with
      | [] => none
      | c :: r =>
          if c = 'n' then (dropLit ['u', 'l', 'l'] r).map (fun r2 => (.null, r2))
          else if c = 't' then (dropLit ['r', 'u', 'e'] r).map (fun r2 => (.bool true, r2))
          else if c = 'f' then (dropLit ['a', 'l', 's', 'e'] r).map (fun r2 => (.bool false, r2))
          else if c = '"' then (parseJStr r).map (fun p => (.str (String.mk p.1), p.2))
          else if c = '[' then
            (match dropLead isJsonWs r with
             | d :: r2 =>
                 if d = ']' then some (.arr [], r2)
                 else (parseJItems fuel r).map (fun p => (.arr p.1, p.2))
             | [] => (parseJItems fuel r).map (fun p => (.arr p.1, p.2)))
          else if c = '\x7b' then
            (match dropLead isJsonWs r with
             | d :: r2 =>
                 if d = '\x7d' then some (.obj [], r2)
                 else (parseJMembers fuel r).map (fun p => (.obj p.1, p.2))
             | [] => (parseJMembers fuel r).map (fun p => (.obj p.1, p.2)))
          else if c = '-' ∨ c.isDigit then
            (parseJNum (c :: r)).map (fun p => (.num p.1, p.2))
          else none

/-- One-or-more comma-separated array items, up to the closing bracket. -/
def parseJItems : Nat → List Char → Option (List JVal × List Char)
  | 0, _ => none
  | fuel + 1, cs => do
      let p ← parseJVal fuel cs
      match dropLead isJsonWs p.2 with
      | [] => none
      | d :: r2 =>
          if d = ',' then (parseJItems fuel r2).map (fun q => (p.1 :: q.1, q.2))
          else if d = ']' then some ([p.1], r2)
          else none

/-- One-or-more `"key": value` object members, up to the closing brace. -/
def parseJMembers : Nat → List Char → Option (List (String × JVal) × List Char)
  | 0, _ => none
  | fuel + 1, cs =>
      match dropLead isJsonWs cs with
      | [] => none
      | c :: r =>
          if c = '"' then do
            let k ← parseJStr r
            match dropLead isJsonWs k.2 with
            | [] => none
            | d :: r2 =>
                if d = ':' then do
                  let v ← parseJVal fuel r2
                  match dropLead isJsonWs v.2 with
                  | [] => none
                  | d2 :: r4 =>
                      if d2 = ',' then
                        (parseJMembers fuel r4).map (fun q => ((String.mk k.1, v.1) :: q.1, q.2))
                      else if d2 = '\x7d' then some ([(String.mk k.1, v.1)], r4)
                      else none
                else none
          else none

end

/-- Model of `json.loads`: parse one document, allow trailing whitespace
    only.  A parse error (Python: `ValueError`) is `none`. -/
def jsonLoads (s : String) : Option JVal :=
  match parseJVal (2 * s.data.length + 2) s.data with
  | some (v, r) => if dropLead isJsonWs r = [] then some v else none
  | none => none

/-! ## Python `float()` on a string -/

/-- A leading `-` or `+` sign, as `float()` accepts. -/
def pySign : List Char → Bool × List Char
  | [] => (false, [])
  | c :: t =>
      if c = '-' then (true, t)
      else if c = '+' then (false, t)
      else (false, c :: t)

/-- The value of `float()`'s mantissa `ip.fds` with sign `neg`. -/
def pyFloatVal (neg : Bool) (ip fds : List Char) : Rat :=
  jSigned neg ((digitsVal ip : Rat) + (digitsVal fds : Rat) / ((10 : Rat) ^ fds.length))

/-- `float()`'s exponent part after `e`/`E`: optional sign then digits,
    which must end the string. -/
def pyExpTail (v : Rat) (t : List Char) : Option Rat :=
  match grabDigits (expSign t).2 with
  | ([], _) => none
  | (eds, r2) =>
      if r2 = [] then
        if (expSign t).1 then some (v / ((10 : Rat) ^ digitsVal eds))
        else some (v * ((10 : Rat) ^ digitsVal eds))
      else none

/-- After `float()`'s mantissa: end of string, or an exponent. -/
def pyAfterMantissa (v : Rat) : List Char → Option Rat
  | [] => some v
  | c :: t => if c = 'e' ∨ c = 'E' then pyExpTail v t else none

/-- Model of Python `float(x)` for decimal literals: optional surrounding
    whitespace, optional sign, digits with optional fraction and exponent
    (at least one digit before or after the point).  (`inf`/`nan` spellings
    and `_` digit separators are not modelled; no claim touches them.)
    `none` models the raised `ValueError`. -/
def pyFloatFrac (neg : Bool) (ip : List Char) : List Char → Option Rat
  | [] => if ip = [] then none else pyAfterMantissa (pyFloatVal neg ip []) []
  | c :: t =>
      if c = '.' then
        (match grabDigits t with
         | (fds, r1) =>
             if ip = [] ∧ fds = [] then none
             else pyAfterMantissa (pyFloatVal neg ip fds) r1)
      else if ip = [] then none
      else pyAfterMantissa (pyFloatVal neg ip []) (c :: t)

/-- Model of Python `float(x)` (see the module comment): sign, mantissa,
    optional fraction and exponent. -/
def pyFloat (cs0 : List Char) : Option Rat :=
  match pySign (stripEnds isPyWs cs0) with
  | (neg, cs1) =>
      match grabDigits cs1 with
      | (ip, r0) => pyFloatFrac neg ip r0

/-! ## `parse_coordinate_string` -/

/-- A scalar pandas cell / field value as this program distinguishes them:
    `none` is any scalar with `pd.isna(v)` true (None, NaN); `str` a
    string; `other` any other non-null, non-string scalar (a number, a
    timestamp, ...).  Array-like values are not `PyVal`s — on them
    `pd.isna` is elementwise and the function raises; see `PyArg`. -/
inductive PyVal where
  | none
  | str (s : String)
  | other

/-- Sequence a fallible map over a list, failing if any element fails
    (the Option monad's `mapM`, in directly recursive form): models a
    Python list comprehension in which each element may raise. -/
def optMapM {α β : Type} (f : α → Option β) : List α → Option (List β)
  | [] => some []
  | x :: t => do
      let y ← f x
      let ys ← optMapM f t
      some (y :: ys)

/-- The `try`-protected body of `parse_coordinate_string` on a string:
    `Option.none` models an uncaught exception inside the `try`. -/
def parse_body (s : String) : Option (List JVal) :=
  if (dropLead isPyWs s.data).head? = some '[' then
    -- coord_str.strip().startswith('['): parse as JSON
    (match jsonLoads s with
     | some (.arr xs) => some xs
     | some _ => some []   -- unreachable: a JSON text starting with '[' is an array
     | Option.none => Option.none)
  else if hasChar ';' s.data then
    -- "lat1,lon1;lat2,lon2": split on ';', then ',' and float each piece
    (optMapM (fun grp => optMapM pyFloat (splitOnChar ',' grp))
        (splitOnChar ';' s.data)).map
      (fun gs => gs.map (fun g => JVal.arr (g.map JVal.num)))
  else some []

/-- `parse_coordinate_string(coord_str)` from `assignment2.py`, on scalar
    arguments: null and non-string scalars give `[]`; any exception in the
    try-protected body gives `[]`. -/
def parse_coordinate_string (v : PyVal) : List JVal :=
  match v with
  | .none => []
  | .str s =>
      match parse_body s with
      | some l => l
      | Option.none => []
  | .other => []

/-- An argument to `parse_coordinate_string` as Python receives it: a
    scalar cell value, or an array-like (a list or array of two or more
    elements).  On the latter, `pd.isna` returns an elementwise boolean
    array whose truth test in `if pd.isna(coord_str):` (line 24) raises
    `ValueError` — before the `try`, so nothing catches it. -/
inductive PyArg where
  | scalar (v : PyVal)
  | arraylike

/-- The full call semantics of `parse_coordinate_string`, exceptions
    included: a scalar argument returns normally with the parsed list; an
    array-like argument raises (uncaught) at the `pd.isna` test. -/
def parse_coordinate_string_call : PyArg → Except String (List JVal)
  | .scalar v => .ok (parse_coordinate_string v)
  | .arraylike => .error "ValueError: ambiguous truth value of an array"

/-- Did the call return normally (no exception reached the caller)? -/
def callReturned : Except String (List JVal) → Bool
  | .ok _ => true
  | .error _ => false

/-! ## The two textual encodings of a coordinate sequence -/

/-- One `[lat,lon]` pair in the nested-bracket-literal encoding. -/
def encPairB (p : Int × Int) : List Char :=
  '[' :: (renderInt p.1 ++ ',' :: renderInt p.2 ++ [']'])

/-- Nested-bracket-literal encoding `"[[lat1,lon1],[lat2,lon2]]"`. -/
def encodeBrackets (ps : List (Int × Int)) : String :=
  String.mk ('[' :: joinSep ',' (ps.map encPairB) ++ [']'])

/-- One `lat,lon` pair in the semicolon-delimited encoding. -/
def encPairS (p : Int × Int) : List Char :=
  renderInt p.1 ++ ',' :: renderInt p.2

/-- Semicolon-delimited encoding `"lat1,lon1;lat2,lon2"`. -/
def encodeSemis (ps : List (Int × Int)) : String :=
  String.mk (joinSep ';' (ps.map encPairS))

/-- The decoded form of one pair, as Python’s parser represents it. -/
def jpair (p : Int × Int) : JVal :=
  .arr [.num (p.1 : Rat), .num (p.2 : Rat)]

/-! ## Spreadsheet rows -/

/-- One column's cell of a row: the column may be absent from the sheet
    entirely (`missing`), present with a blank cell (pandas stores NaN:
    `nan`), or present with a value. -/
inductive Cell (α : Type) where
  | missing
  | nan
  | val (a : α)
deriving DecidableEq

/-- A Python value as the script passes it to a folium attribute: either a
    real value or the float `nan` read from a blank cell. -/
inductive PyAttr (α : Type) where
  | nan
  | val (a : α)
deriving DecidableEq

/-- `row.get(key, default)` on a pandas Series: the default is used only
    when the key (column) is absent; a stored NaN is returned as-is. -/
def Cell.get {α : Type} : Cell α → α → PyAttr α
  | .missing, d => .val d
  | .nan, _ => .nan
  | .val a, _ => .val a

/-- `row.get(key, default)` whose default expression is itself a possibly-
    NaN attribute, as in `row.get('fill_color', row.get('color', ...))`. -/
def Cell.getA {α : Type} : Cell α → PyAttr α → PyAttr α
  | .missing, d => d
  | .nan, _ => .nan
  | .val a, _ => .val a

/-- Python's f-string rendering of a possibly-NaN string attribute
    (`f"{nan}"` prints `"nan"`). -/
def PyAttr.fstr : PyAttr String → String
  | .nan => "nan"
  | .val s => s

/-- A row of the `markers` sheet. -/
structure MarkerRow where
  latitude : Option Rat := .none
  longitude : Option Rat := .none
  name : Cell String := .missing
  description : Option String := .none
  icon : Option String := .none
  color : Option String := .none

/-- A row of the `lines` sheet. -/
structure LineRow where
  name : Cell String := .missing
  coordinates : PyVal := .none
  color : Cell String := .missing
  weight : Cell Rat := .missing
  opacity : Cell Rat := .missing

/-- A row of the `polygons` sheet. -/
structure PolygonRow where
  name : Cell String := .missing
  coordinates : PyVal := .none
  color : Cell String := .missing
  fill_color : Cell String := .missing
  fill_opacity : Cell Rat := .missing
  weight : Cell Rat := .missing

/-- A row of the `heatmap` sheet. -/
structure HeatRow where
  latitude : Option Rat := .none
  longitude : Option Rat := .none
  intensity : Cell Rat := .missing

/-- A row of the `circles` sheet. -/
structure CircleRow where
  latitude : Option Rat := .none
  longitude : Option Rat := .none
  radius : Cell Rat := .missing
  name : Cell String := .missing
  description : Option String := .none
  color : Cell String := .missing
  fill_color : Cell String := .missing
  fill_opacity : Cell Rat := .missing
  weight : Cell Rat := .missing

/-! ## Folium elements attached to the map -/

/-- One folium object added to the map, with the attributes the script sets. -/
inductive Elem where
  | marker (location : Rat × Rat) (popup : String) (tooltip : PyAttr String)
      (icon : Option String) (color : String)
  | markerCluster (markers : List Elem)
  | polyline (locations : List JVal) (color : PyAttr String) (weight : PyAttr Rat)
      (opacity : PyAttr Rat) (tooltip : PyAttr String) (popup : PyAttr String)
  | polygon (locations : List JVal) (popup : PyAttr String) (tooltip : PyAttr String)
      (color : PyAttr String) (fill_color : PyAttr String)
      (fill_opacity : PyAttr Rat) (weight : PyAttr Rat)
  | heatLayer (data : List (Rat × Rat × PyAttr Rat))
  | circle (location : Rat × Rat) (radius : PyAttr Rat) (popup : String)
      (tooltip : PyAttr String) (color : PyAttr String) (fill_color : PyAttr String)
      (fill_opacity : PyAttr Rat) (weight : PyAttr Rat)
  | tileLayer (name : String)
  | layerControl
  | circleMarker (location : Rat × Rat) (radius : Rat) (color : String)
      (fill_color : String) (fill_opacity : Rat) (popup : String)

/-! ## Layer builders -/

/-- The popup HTML shared by markers and circles:
    `"<b>{row.get('name', default)}</b>"` (an f-string, so a NaN name cell
    prints as `"nan"`) plus `"<br>{description}"` when present. -/
def popupHtml (name : PyAttr String) (description : Option String) : String :=
  "<b>" ++ name.fstr ++ "</b>" ++
    (match description with
     | some d => "<br>" ++ d
     | Option.none => "")

/-- The elements one `markers` row contributes (inside the cluster when
    clustering is on): nothing unless both coordinates are present. -/
def markerRowElems (row : MarkerRow) : List Elem :=
  match row.latitude, row.longitude with
  | some lat, some lon =>
      [ .marker (lat, lon)
          (popupHtml (row.name.get "Marker") row.description)
          (row.name.get "Marker")
          row.icon
          (row.color.getD "blue") ]
  | _, _ => []

/-- `add_markers`: nothing when the sheet is absent or empty; otherwise the
    per-row markers, wrapped in one `MarkerCluster` when `use_cluster`. -/
def add_markers (df_markers : Option (List MarkerRow)) (use_cluster : Bool) :
    List Elem :=
  match df_markers with
  | Option.none => []
  | some [] => []
  | some rows =>
      let ms := rows.flatMap markerRowElems
      if use_cluster then [.markerCluster ms] else ms

/-- The elements one `lines` row contributes: nothing when its decoded
    coordinate sequence is empty. -/
def lineRowElems (row : LineRow) : List Elem :=
  match parse_coordinate_string row.coordinates with
  | [] => []
  | coordinates =>
      [ .polyline coordinates (row.color.get "red") (row.weight.get 3)
          (row.opacity.get 0.8) (row.name.get "Line") (row.name.get "Line") ]

/-- `add_lines`. -/
def add_lines (df_lines : Option (List LineRow)) : List Elem :=
  match df_lines with
  | Option.none => []
  | some [] => []
  | some rows => rows.flatMap lineRowElems

/-- The elements one `polygons` row contributes: nothing when its decoded
    coordinate sequence is empty. -/
def polygonRowElems (row : PolygonRow) : List Elem :=
  match parse_coordinate_string row.coordinates with
  | [] => []
  | coordinates =>
      [ .polygon coordinates (row.name.get "Area") (row.name.get "Area")
          (row.color.get "blue")
          (row.fill_color.getA (row.color.get "lightblue"))
          (row.fill_opacity.get 0.4) (row.weight.get 2) ]

/-- `add_polygons`. -/
def add_polygons (df_polygons : Option (List PolygonRow)) : List Elem :=
  match df_polygons with
  | Option.none => []
  | some [] => []
  | some rows => rows.flatMap polygonRowElems

/-- The `(lat, lon, intensity)` triples one `heatmap` row contributes:
    `row.get('intensity', 1)` is unguarded, so a blank cell in a present
    intensity column contributes `nan`, not 1. -/
def heatRowData (row : HeatRow) : List (Rat × Rat × PyAttr Rat) :=
  match row.latitude, row.longitude with
  | some lat, some lon => [(lat, lon, row.intensity.get 1)]
  | _, _ => []

/-- `add_heatmap`: collect the triples; one `HeatMap` layer when any exist. -/
def add_heatmap (df_heatmap : Option (List HeatRow)) : List Elem :=
  match df_heatmap with
  | Option.none => []
  | some [] => []
  | some rows =>
      match rows.flatMap heatRowData with
      | [] => []
      | heat_data => [.heatLayer heat_data]

/-- The elements one `circles` row contributes. -/
def circleRowElems (row : CircleRow) : List Elem :=
  match row.latitude, row.longitude with
  | some lat, some lon =>
      [ .circle (lat, lon) (row.radius.get 500)
          (popupHtml (row.name.get "Circle") row.description)
          (row.name.get "Circle")
          (row.color.get "blue")
          (row.fill_color.getA (row.color.get "lightblue"))
          (row.fill_opacity.get 0.4) (row.weight.get 2) ]
  | _, _ => []

/-- `add_circles`. -/
def add_circles (df_circles : Option (List CircleRow)) : List Elem :=
  match df_circles with
  | Option.none => []
  | some [] => []
  | some rows => rows.flatMap circleRowElems

/-! ## The map composer -/

/-- The five named sheets of the workbook (`none` = tab absent). -/
structure ExcelData where
  markers : Option (List MarkerRow) := .none
  lines : Option (List LineRow) := .none
  polygons : Option (List PolygonRow) := .none
  heatmap : Option (List HeatRow) := .none
  circles : Option (List CircleRow) := .none

/-- `df['latitude'].dropna().tolist()` guarded by
    `df is not None and not df.empty` (an absent column is all-`none`). -/
def colVals {α : Type} (df : Option (List α)) (f : α → Option Rat) : List Rat :=
  match df with
  | Option.none => []
  | some [] => []
  | some rows => rows.filterMap f

/-- `all_lats`: latitudes gathered from the markers, heatmap and circles
    sheets, in that order. -/
def allLats (d : ExcelData) : List Rat :=
  colVals d.markers (fun r => r.latitude) ++
    colVals d.heatmap (fun r => r.latitude) ++
    colVals d.circles (fun r => r.latitude)

/-- `all_lons`: the longitude analogue of `allLats`. -/
def allLons (d : ExcelData) : List Rat :=
  colVals d.markers (fun r => r.longitude) ++
    colVals d.heatmap (fun r => r.longitude) ++
    colVals d.circles (fun r => r.longitude)

/-- The viewport-center computation of `create_map_from_excel`:
    when either supplied coordinate is `None`, both are recomputed from the
    data (averages when any values exist, else `(0, 0)`). -/
def computeCenter (center_lat center_lon : Option Rat) (d : ExcelData) :
    Rat × Rat :=
  match center_lat, center_lon with
  | some la, some lo => (la, lo)
  | _, _ =>
      let all_lats := allLats d
      let all_lons := allLons d
      if all_lats ≠ [] ∧ all_lons ≠ [] then
        (all_lats.sum / (all_lats.length : Rat),
         all_lons.sum / (all_lons.length : Rat))
      else (0, 0)

/-- The state of the composed folium map. -/
structure MapModel where
  location : Rat × Rat
  zoom_start : Rat
  elems : List Elem

/-- `create_map_from_excel` (the part after reading the workbook): compute
    the center, add the two alternate tile layers, run the five layer
    builders in the source's order, then the layer control and the
    decorative center marker. -/
def create_map_from_excel (data : ExcelData)
    (center_lat center_lon : Option Rat) (zoom_start : Rat) : MapModel :=
  let c := computeCenter center_lat center_lon data
  { location := c
    zoom_start := zoom_start
    elems :=
      [Elem.tileLayer "CartoDB positron", Elem.tileLayer "CartoDB dark_matter"]
        ++ add_markers data.markers true
        ++ add_polygons data.polygons
        ++ add_circles data.circles
        ++ add_heatmap data.heatmap
        ++ add_lines data.lines
        ++ [Elem.layerControl,
            Elem.circleMarker c 12 "yellow" "yellow" 0.6 "✨ Center Glow ✨"] }

/-! ## Spec-side definitions (phrased from the specification's words) -/

/-- Arithmetic mean of a list of rationals. -/
def mean (l : List Rat) : Rat := l.sum / (l.length : Rat)

/-- Spec 4.5, amended: the `(lat, lon, intensity)` triples collected from
    rows with valid coordinates, one per valid row — the intensity is the
    stored cell value (`nan` for a blank cell), defaulting to 1 only when
    the intensity column is absent. -/
def heatTriples (rows : List HeatRow) : List (Rat × Rat × PyAttr Rat) :=
  rows.filterMap (fun r =>
    match r.latitude, r.longitude with
    | some lat, some lon => some (lat, lon, r.intensity.get 1)
    | _, _ => Option.none)

/-- Spec 4.4, amended: polygon fill color — the `fill_color` cell when
    that column is present (a blank cell passes `nan` through), else the
    outline `color` cell when that column is present (again `nan` when
    blank), else `"lightblue"`. -/
def fillColorSpec (row : PolygonRow) : PyAttr String :=
  match row.fill_color with
  | .val c => .val c
  | .nan => .nan
  | .missing =>
      match row.color with
      | .val c => .val c
      | .nan => .nan
      | .missing => .val "lightblue"

/-- The fill color an element is rendered with, when it has one. -/
def Elem.fillColorOf : Elem → Option (PyAttr String)
  | .polygon _ _ _ _ fc _ _ => some fc
  | .circle _ _ _ _ _ fc _ _ => some fc
  | _ => Option.none

/-- Is every decoded entry a `[lat, lon]` pair of numbers? -/
def isPairSeq (l : List JVal) : Bool :=
  l.all fun v =>
    match v with
    | .arr [.num _, .num _] => true
    | _ => false

/-- A workbook holding only two markers, at (0, 0) and (2, 2) (spec §8). -/
def twoMarkerData : ExcelData :=
  { markers := some
      [ { latitude := some 0, longitude := some 0 },
        { latitude := some 2, longitude := some 2 } ] }

/-- The layer a rendered element belongs to, in the order the composer adds
    layers (`none` for tile layers, the control and the decorative marker). -/
def layerIdx : Elem → Option Nat
  | .marker _ _ _ _ _ => some 0
  | .markerCluster _ => some 0
  | .polygon _ _ _ _ _ _ _ => some 1
  | .circle _ _ _ _ _ _ _ _ => some 2
  | .heatLayer _ => some 3
  | .polyline _ _ _ _ _ _ => some 4
  | _ => Option.none

/-! ## Lemmas: digit strings and the integer renderer -/

theorem charVal_digitChar : ∀ d : Nat, d < 10 →
    charVal (Nat.digitChar d) = d ∧ (Nat.digitChar d).isDigit = true := by
  decide

theorem digitChar_ne_zero : ∀ d : Nat, d < 10 → 0 < d → Nat.digitChar d ≠ '0' := by
  decide

theorem digitsVal_nil : digitsVal [] = 0 := rfl

theorem digitsVal_concat (ds : List Char) (c : Char) :
    digitsVal (ds ++ [c]) = 10 * digitsVal ds + charVal c := by
  simp [digitsVal, List.foldl_append]

theorem digitsOfAux_val : ∀ (fuel n : Nat), n < fuel →
    digitsVal (digitsOfAux fuel n) = n
  | fuel + 1, n, h => by
      unfold digitsOfAux
      by_cases h10 : n < 10
      · simp only [if_pos h10]
        have := charVal_digitChar n h10
        simp [digitsVal, this.1]
      · simp only [if_neg h10]
        rw [digitsVal_concat,
          digitsOfAux_val fuel (n / 10) (by
            have := Nat.div_lt_self (by omega : 0 < n) (by omega : 1 < 10)
            omega),
          (charVal_digitChar (n % 10) (Nat.mod_lt _ (by omega))).1]
        omega

theorem digitsOfAux_digits : ∀ (fuel n : Nat), n < fuel →
    ∀ c ∈ digitsOfAux fuel n, c.isDigit = true
  | fuel + 1, n, h => by
      unfold digitsOfAux
      by_cases h10 : n < 10
      · simp only [if_pos h10, List.mem_singleton]
        intro c hc
        subst hc
        exact (charVal_digitChar n h10).2
      · simp only [if_neg h10]
        intro c hc
        rcases List.mem_append.mp hc with hl | hr
        · exact digitsOfAux_digits fuel (n / 10) (by
            have := Nat.div_lt_self (by omega : 0 < n) (by omega : 1 < 10)
            omega) c hl
        · rw [List.mem_singleton] at hr
          subst hr
          exact (charVal_digitChar (n % 10) (Nat.mod_lt _ (by omega))).2

theorem digitsOfAux_cons : ∀ (fuel n : Nat), n < fuel →
    ∃ c t, digitsOfAux fuel n = c :: t ∧ c.isDigit = true ∧ (0 < n → c ≠ '0')
  | fuel + 1, n, h => by
      unfold digitsOfAux
      by_cases h10 : n < 10
      · simp only [if_pos h10]
        exact ⟨Nat.digitChar n, [], rfl, (charVal_digitChar n h10).2,
          fun hn => digitChar_ne_zero n h10 hn⟩
      · simp only [if_neg h10]
        obtain ⟨c, t, heq, hd, hz⟩ := digitsOfAux_cons fuel (n / 10) (by
          have := Nat.div_lt_self (by omega : 0 < n) (by omega : 1 < 10)
          omega)
        refine ⟨c, t ++ [Nat.digitChar (n % 10)], by rw [heq]; rfl, hd, ?_⟩
        intro _
        exact hz (by omega)

theorem digitsOf_val (n : Nat) : digitsVal (digitsOf n) = n :=
  digitsOfAux_val (n + 1) n (Nat.lt_succ_self n)

theorem digitsOf_digits (n : Nat) : ∀ c ∈ digitsOf n, c.isDigit = true :=
  digitsOfAux_digits (n + 1) n (Nat.lt_succ_self n)

theorem digitsOf_cons (n : Nat) :
    ∃ c t, digitsOf n = c :: t ∧ c.isDigit = true ∧ (0 < n → c ≠ '0') :=
  digitsOfAux_cons (n + 1) n (Nat.lt_succ_self n)

theorem digitsOf_zero : digitsOf 0 = ['0'] := rfl

theorem renderInt_chars (i : Int) : ∀ c ∈ renderInt i, c = '-' ∨ c.isDigit = true := by
  intro c hc
  unfold renderInt at hc
  by_cases h : i < 0
  · rw [if_pos h] at hc
    rcases List.mem_cons.mp hc with h1 | h2
    · exact Or.inl h1
    · exact Or.inr (digitsOf_digits _ c h2)
  · rw [if_neg h] at hc
    exact Or.inr (digitsOf_digits _ c hc)

theorem renderInt_head (i : Int) :
    ∃ c t, renderInt i = c :: t ∧ (c = '-' ∨ c.isDigit = true) := by
  unfold renderInt
  by_cases h : i < 0
  · exact ⟨'-', _, by rw [if_pos h], Or.inl rfl⟩
  · obtain ⟨c, t, heq, hd, _⟩ := digitsOf_cons i.toNat
    exact ⟨c, t, by rw [if_neg h, heq], Or.inr hd⟩

/-! ## Lemmas: character classes, `dropLead`, `grabDigits` -/

theorem digit_ne {c : Char} (h : c.isDigit = true) (x : Char)
    (hx : x.isDigit = false) : c ≠ x := by
  intro hcx
  subst hcx
  rw [h] at hx
  exact Bool.noConfusion hx

theorem digit_not_jsonWs {c : Char} (h : c.isDigit = true) : isJsonWs c = false := by
  unfold isJsonWs
  simp only [Bool.or_eq_false_iff, decide_eq_false_iff_not]
  exact ⟨⟨⟨digit_ne h ' ' (by decide), digit_ne h '\t' (by decide)⟩,
    digit_ne h '\n' (by decide)⟩, digit_ne h '\r' (by decide)⟩

theorem digit_not_pyWs {c : Char} (h : c.isDigit = true) : isPyWs c = false := by
  unfold isPyWs
  simp only [Bool.or_eq_false_iff, decide_eq_false_iff_not]
  exact ⟨⟨⟨⟨⟨digit_ne h ' ' (by decide), digit_ne h '\t' (by decide)⟩,
    digit_ne h '\n' (by decide)⟩, digit_ne h '\r' (by decide)⟩,
    digit_ne h '\x0b' (by decide)⟩, digit_ne h '\x0c' (by decide)⟩

theorem intHead_not_jsonWs {c : Char} (h : c = '-' ∨ c.isDigit = true) :
    isJsonWs c = false := by
  rcases h with rfl | hd
  · decide
  · exact digit_not_jsonWs hd

theorem intHead_not_pyWs {c : Char} (h : c = '-' ∨ c.isDigit = true) :
    isPyWs c = false := by
  rcases h with rfl | hd
  · decide
  · exact digit_not_pyWs hd

theorem dropLead_cons_of {p : Char → Bool} {c : Char} {t : List Char}
    (h : p c = false) : dropLead p (c :: t) = c :: t := by
  simp [dropLead, h]

theorem dropLead_nil (p : Char → Bool) : dropLead p [] = [] := rfl

theorem dropLead_of_all {p : Char → Bool} {cs : List Char}
    (h : ∀ c ∈ cs, p c = false) : dropLead p cs = cs := by
  cases cs with
  | nil => rfl
  | cons c t => exact dropLead_cons_of (h c (List.mem_cons_self ..))

theorem stripEnds_of_all {p : Char → Bool} {cs : List Char}
    (h : ∀ c ∈ cs, p c = false) : stripEnds p cs = cs := by
  unfold stripEnds
  rw [dropLead_of_all h, dropLead_of_all (fun c hc => h c (List.mem_reverse.mp hc)),
    List.reverse_reverse]

theorem grabDigits_nil : grabDigits [] = ([], []) := rfl

theorem grabDigits_stop {cs : List Char}
    (h : ∀ c, cs.head? = some c → c.isDigit = false) :
    grabDigits cs = ([], cs) := by
  cases cs with
  | nil => rfl
  | cons c t => simp [grabDigits, h c rfl]

theorem grabDigits_run {ds : List Char} (hds : ∀ c ∈ ds, c.isDigit = true)
    {r : List Char} (hr : ∀ c, r.head? = some c → c.isDigit = false) :
    grabDigits (ds ++ r) = (ds, r) := by
  induction ds with
  | nil => simpa using grabDigits_stop hr
  | cons c t ih =>
      have hc : c.isDigit = true := hds c (List.mem_cons_self ..)
      have ht := ih (fun x hx => hds x (List.mem_cons_of_mem _ hx))
      simp [grabDigits, hc, ht]

/-! ## Lemmas: number round trips -/

theorem jNumExp_calm {signed : Rat} {r : List Char}
    (h : ∀ c, r.head? = some c → c ≠ 'e' ∧ c ≠ 'E') :
    jNumExp signed r = some (signed, r) := by
  cases r with
  | nil => rfl
  | cons c t =>
      obtain ⟨he, hE⟩ := h c rfl
      simp [jNumExp, he, hE]

theorem jNumTail_calm {neg : Bool} {ip : Nat} {r : List Char}
    (h : ∀ c, r.head? = some c → c ≠ '.' ∧ c ≠ 'e' ∧ c ≠ 'E') :
    jNumTail neg ip r = some (jSigned neg (ip : Rat), r) := by
  cases r with
  | nil => rfl
  | cons c t =>
      obtain ⟨hdot, he, hE⟩ := h c rfl
      simp only [jNumTail, if_neg hdot]
      exact jNumExp_calm (fun d hd => by
        simp only [List.head?_cons, Option.some_inj] at hd
        subst hd
        exact ⟨he, hE⟩)

theorem jNumBody_digitsOf (neg : Bool) (n : Nat) {r : List Char}
    (h : ∀ c, r.head? = some c →
      c.isDigit = false ∧ c ≠ '.' ∧ c ≠ 'e' ∧ c ≠ 'E') :
    jNumBody neg (digitsOf n ++ r) = some (jSigned neg (n : Rat), r) := by
  obtain ⟨c, t, heq, hdig, hz⟩ := digitsOf_cons n
  by_cases h0 : n = 0
  · subst h0
    rw [digitsOf_zero]
    have htail : jNumTail neg 0 r = some (jSigned neg ((0 : Nat) : Rat), r) :=
      jNumTail_calm (fun c hc => ((h c hc).2))
    simpa [jNumBody] using htail
  · have hc0 : c ≠ '0' := hz (Nat.pos_of_ne_zero h0)
    rw [heq, List.cons_append]
    simp only [jNumBody, if_neg hc0, if_pos hdig]
    rw [← List.cons_append, ← heq,
      grabDigits_run (digitsOf_digits n) (fun c hc => (h c hc).1),
      digitsOf_val,
      jNumTail_calm (fun c hc => (h c hc).2)]

theorem parseJNum_renderInt (i : Int) {r : List Char}
    (h : ∀ c, r.head? = some c →
      c.isDigit = false ∧ c ≠ '.' ∧ c ≠ 'e' ∧ c ≠ 'E') :
    parseJNum (renderInt i ++ r) = some ((i : Rat), r) := by
  unfold renderInt
  by_cases hneg : i < 0
  · rw [if_pos hneg, List.cons_append]
    have hsign : jSign ('-' :: (digitsOf (-i).toNat ++ r)) =
        (true, digitsOf (-i).toNat ++ r) := by
      simp [jSign]
    rw [parseJNum, hsign, jNumBody_digitsOf true _ h]
    have h1 : (((-i).toNat : Nat) : Int) = -i := Int.toNat_of_nonneg (by omega)
    have hv : (((-i).toNat : Nat) : Rat) = -(i : Rat) := by exact_mod_cast h1
    simp [jSigned, hv]
  · rw [if_neg hneg]
    obtain ⟨c, t, heq, hdig, _⟩ := digitsOf_cons i.toNat
    have hsign : jSign (digitsOf i.toNat ++ r) = (false, digitsOf i.toNat ++ r) := by
      rw [heq, List.cons_append]
      simp [jSign, digit_ne hdig '-' (by decide)]
    rw [parseJNum, hsign, jNumBody_digitsOf false _ h]
    have h1 : ((i.toNat : Nat) : Int) = i := Int.toNat_of_nonneg (by omega)
    have hv : ((i.toNat : Nat) : Rat) = (i : Rat) := by exact_mod_cast h1
    simp [jSigned, hv]

theorem intHead_ne {c : Char} (h : c = '-' ∨ c.isDigit = true) (x : Char)
    (hx : x.isDigit = false) (hxm : x ≠ '-') : c ≠ x := by
  rcases h with rfl | hd
  · exact fun e => hxm e.symm
  · exact digit_ne hd x hx

theorem pyFloatVal_ints (neg : Bool) (ds : List Char) :
    pyFloatVal neg ds [] = jSigned neg (digitsVal ds : Rat) := by
  simp [pyFloatVal, digitsVal_nil]

theorem digitsOf_ne_nil (n : Nat) : digitsOf n ≠ [] := by
  obtain ⟨c, t, heq, _, _⟩ := digitsOf_cons n
  rw [heq]
  exact List.cons_ne_nil c t

theorem pyFloat_digitsOf (neg : Bool) (n : Nat) :
    pyFloatFrac neg (digitsOf n) [] = some (jSigned neg (n : Rat)) := by
  unfold pyFloatFrac
  rw [if_neg (digitsOf_ne_nil n), pyFloatVal_ints, digitsOf_val]
  rfl

theorem pyFloat_renderInt (i : Int) : pyFloat (renderInt i) = some (i : Rat) := by
  have hall : ∀ c ∈ renderInt i, isPyWs c = false := fun c hc =>
    intHead_not_pyWs (renderInt_chars i c hc)
  unfold pyFloat
  rw [stripEnds_of_all hall]
  unfold renderInt
  by_cases hneg : i < 0
  · rw [if_pos hneg]
    have hps : pySign ('-' :: digitsOf (-i).toNat) = (true, digitsOf (-i).toNat) := by
      simp [pySign]
    have hgd : grabDigits (digitsOf (-i).toNat) = (digitsOf (-i).toNat, []) := by
      have h2 : grabDigits (digitsOf (-i).toNat ++ []) = (digitsOf (-i).toNat, []) :=
        grabDigits_run (digitsOf_digits _) (fun c hc => by cases hc)
      simpa using h2
    simp only [hps, hgd, pyFloat_digitsOf]
    have h1 : (((-i).toNat : Nat) : Int) = -i := Int.toNat_of_nonneg (by omega)
    have hv : (((-i).toNat : Nat) : Rat) = -(i : Rat) := by exact_mod_cast h1
    simp [jSigned, hv]
  · rw [if_neg hneg]
    obtain ⟨c, t, heq, hdig, _⟩ := digitsOf_cons i.toNat
    have hps : pySign (digitsOf i.toNat) = (false, digitsOf i.toNat) := by
      rw [heq]
      simp [pySign, digit_ne hdig '-' (by decide), digit_ne hdig '+' (by decide)]
    have hgd : grabDigits (digitsOf i.toNat) = (digitsOf i.toNat, []) := by
      have h2 : grabDigits (digitsOf i.toNat ++ []) = (digitsOf i.toNat, []) :=
        grabDigits_run (digitsOf_digits _) (fun c hc => by cases hc)
      simpa using h2
    simp only [hps, hgd, pyFloat_digitsOf]
    have h1 : ((i.toNat : Nat) : Int) = i := Int.toNat_of_nonneg (by omega)
    have hv : ((i.toNat : Nat) : Rat) = (i : Rat) := by exact_mod_cast h1
    simp [jSigned, hv]

/-! ## Lemmas: the JSON parser on rendered values -/

theorem parseJVal_numHead (f : Nat) {c : Char} {t : List Char}
    (h : c = '-' ∨ c.isDigit = true) :
    parseJVal (f + 1) (c :: t) =
      (parseJNum (c :: t)).map (fun p => (JVal.num p.1, p.2)) := by
  have hws : isJsonWs c = false := intHead_not_jsonWs h
  have hn : c ≠ 'n' := intHead_ne h 'n' (by decide) (by decide)
  have ht : c ≠ 't' := intHead_ne h 't' (by decide) (by decide)
  have hf : c ≠ 'f' := intHead_ne h 'f' (by decide) (by decide)
  have hq : c ≠ '"' := intHead_ne h '"' (by decide) (by decide)
  have hbk : c ≠ '[' := intHead_ne h '[' (by decide) (by decide)
  have hbc : c ≠ '\x7b' := intHead_ne h '\x7b' (by decide) (by decide)
  simp only [parseJVal]
  rw [dropLead_cons_of hws]
  simp only [if_neg hn, if_neg ht, if_neg hf, if_neg hq, if_neg hbk, if_neg hbc, if_pos h]

theorem parseJItems_encPair_last (p2 : Int) :
    ∀ (fuel : Nat) (r : List Char), 2 ≤ fuel →
    parseJItems fuel (renderInt p2 ++ (']' :: r)) =
      some ([JVal.num (p2 : Rat)], r) := by
  intro fuel r hfuel
  obtain ⟨g, rfl⟩ : ∃ g, fuel = g + 1 := ⟨fuel - 1, by omega⟩
  simp only [parseJItems]
  obtain ⟨g2, rfl⟩ : ∃ g2, g = g2 + 1 := ⟨g - 1, by omega⟩
  obtain ⟨c2, t2, heq2, hh2⟩ := renderInt_head p2
  have hnum2 : parseJNum (renderInt p2 ++ (']' :: r)) =
      some ((p2 : Rat), ']' :: r) :=
    parseJNum_renderInt p2 (fun c hc => by
      simp only [List.head?_cons, Option.some_inj] at hc
      subst hc
      exact ⟨by decide, by decide, by decide, by decide⟩)
  rw [heq2, List.cons_append, parseJVal_numHead g2 hh2,
    ← List.cons_append, ← heq2, hnum2]
  simp [dropLead_cons_of (show isJsonWs ']' = false from by decide)]

theorem parseJItems_encPair (p : Int × Int) :
    ∀ (fuel : Nat) (r : List Char), 3 ≤ fuel →
    parseJItems fuel (renderInt p.1 ++ (',' :: (renderInt p.2 ++ (']' :: r)))) =
      some ([JVal.num (p.1 : Rat), JVal.num (p.2 : Rat)], r) := by
  intro fuel r hfuel
  obtain ⟨g, rfl⟩ : ∃ g, fuel = g + 1 := ⟨fuel - 1, by omega⟩
  simp only [parseJItems]
  obtain ⟨g2, rfl⟩ : ∃ g2, g = g2 + 1 := ⟨g - 1, by omega⟩
  obtain ⟨c1, t1, heq1, hh1⟩ := renderInt_head p.1
  have hnum1 : parseJNum (renderInt p.1 ++ (',' :: (renderInt p.2 ++ (']' :: r)))) =
      some ((p.1 : Rat), ',' :: (renderInt p.2 ++ (']' :: r))) :=
    parseJNum_renderInt p.1 (fun c hc => by
      simp only [List.head?_cons, Option.some_inj] at hc
      subst hc
      exact ⟨by decide, by decide, by decide, by decide⟩)
  rw [heq1, List.cons_append, parseJVal_numHead g2 hh1,
    ← List.cons_append, ← heq1, hnum1]
  simp [dropLead_cons_of (show isJsonWs ',' = false from by decide),
    parseJItems_encPair_last p.2 (g2 + 1) r (by omega)]

theorem parseJVal_encPair (p : Int × Int) :
    ∀ (fuel : Nat) (r : List Char), 4 ≤ fuel →
    parseJVal fuel (encPairB p ++ r) = some (jpair p, r) := by
  intro fuel r hfuel
  obtain ⟨g, rfl⟩ : ∃ g, fuel = g + 1 := ⟨fuel - 1, by omega⟩
  have hshape : encPairB p ++ r =
      '[' :: (renderInt p.1 ++ (',' :: (renderInt p.2 ++ (']' :: r)))) := by
    simp [encPairB]
  rw [hshape]
  simp only [parseJVal]
  rw [dropLead_cons_of (by decide : isJsonWs '[' = false)]
  simp only [if_neg (by decide : ¬('[' : Char) = 'n'),
    if_neg (by decide : ¬('[' : Char) = 't'),
    if_neg (by decide : ¬('[' : Char) = 'f'),
    if_neg (by decide : ¬('[' : Char) = '"'),
    if_pos (rfl : ('[' : Char) = '[')]
  obtain ⟨c1, t1, heq1, hh1⟩ := renderInt_head p.1
  rw [heq1, List.cons_append, dropLead_cons_of (intHead_not_jsonWs hh1)]
  simp only [if_neg (intHead_ne hh1 ']' (by decide) (by decide))]
  rw [← List.cons_append, ← heq1, parseJItems_encPair p g r (by omega)]
  simp [jpair]

theorem joinSep_cons (sep : Char) (g : List Char) {gs : List (List Char)}
    (h : gs ≠ []) : joinSep sep (g :: gs) = g ++ sep :: joinSep sep gs := by
  cases gs with
  | nil => exact absurd rfl h
  | cons g2 t => rfl

theorem joinSep_encPairB_len : ∀ ps : List (Int × Int),
    ps.length ≤ (joinSep ',' (ps.map encPairB)).length
  | [] => by simp [joinSep]
  | [p] => by
      simp only [List.map_cons, List.map_nil, joinSep, List.length_cons]
      simp [encPairB]
  | p :: q :: t => by
      rw [List.map_cons, joinSep_cons ',' _ (by simp)]
      have ih := joinSep_encPairB_len (q :: t)
      have h1 : 1 ≤ (encPairB p).length := by simp [encPairB]
      simp only [List.length_cons, List.length_append] at ih ⊢
      omega

theorem joinSep_encPairB_head (p : Int × Int) (t : List (Int × Int)) (x : List Char) :
    ∃ tt, joinSep ',' ((p :: t).map encPairB) ++ x = '[' :: tt := by
  cases t with
  | nil => exact ⟨_, rfl⟩
  | cons q tq =>
      rw [List.map_cons, joinSep_cons ',' _ (by simp)]
      exact ⟨_, rfl⟩

theorem parseJItems_encList : ∀ (ps : List (Int × Int)), ps ≠ [] →
    ∀ (fuel : Nat) (r : List Char), ps.length + 4 ≤ fuel →
    parseJItems fuel (joinSep ',' (ps.map encPairB) ++ (']' :: r)) =
      some (ps.map jpair, r)
  | [], h, _, _, _ => absurd rfl h
  | [p], _, fuel, r, hfuel => by
      obtain ⟨g, rfl⟩ : ∃ g, fuel = g + 1 := ⟨fuel - 1, by omega⟩
      simp only [List.map_cons, List.map_nil, joinSep]
      simp only [parseJItems]
      rw [parseJVal_encPair p g (']' :: r) (by
        simp only [List.length_cons, List.length_nil] at hfuel
        omega)]
      simp [dropLead_cons_of (show isJsonWs ']' = false from by decide)]
  | p :: q :: t, _, fuel, r, hfuel => by
      obtain ⟨g, rfl⟩ : ∃ g, fuel = g + 1 := ⟨fuel - 1, by omega⟩
      rw [List.map_cons, joinSep_cons ',' _ (by simp), List.append_assoc,
        List.cons_append]
      simp only [parseJItems]
      rw [parseJVal_encPair p g _ (by
        simp only [List.length_cons] at hfuel
        omega)]
      have ih := parseJItems_encList (q :: t) (by simp) g r (by
        simp only [List.length_cons] at hfuel ⊢
        omega)
      simp only [List.map_cons] at ih
      simp [dropLead_cons_of (show isJsonWs ',' = false from by decide), ih]

theorem jsonLoads_encodeBrackets (ps : List (Int × Int)) :
    jsonLoads (encodeBrackets ps) = some (.arr (ps.map jpair)) := by
  cases ps with
  | nil => rfl
  | cons p t =>
      unfold jsonLoads
      have hdata : (encodeBrackets (p :: t)).data
          = '[' :: (joinSep ',' ((p :: t).map encPairB) ++ [']']) := rfl
      rw [hdata]
      have hjlen := joinSep_encPairB_len (p :: t)
      obtain ⟨g, hg⟩ : ∃ g,
          2 * ('[' :: (joinSep ',' ((p :: t).map encPairB) ++ [']'])).length + 2
            = g + 1 :=
        ⟨2 * ('[' :: (joinSep ',' ((p :: t).map encPairB) ++ [']'])).length + 1, by omega⟩
      rw [hg]
      have hgbound : (p :: t).length + 4 ≤ g := by
        simp only [List.length_cons, List.length_append] at hg hjlen ⊢
        omega
      simp only [parseJVal]
      rw [dropLead_cons_of (by decide : isJsonWs '[' = false)]
      simp only [if_neg (by decide : ¬('[' : Char) = 'n'),
        if_neg (by decide : ¬('[' : Char) = 't'),
        if_neg (by decide : ¬('[' : Char) = 'f'),
        if_neg (by decide : ¬('[' : Char) = '"'),
        if_pos (rfl : ('[' : Char) = '[')]
      obtain ⟨tt, htt⟩ := joinSep_encPairB_head p t [']']
      rw [htt, dropLead_cons_of (by decide : isJsonWs '[' = false)]
      simp only [if_neg (by decide : ¬('[' : Char) = ']')]
      rw [← htt, parseJItems_encList (p :: t) (by simp) g [] hgbound]
      simp [dropLead_nil]

theorem parse_body_encodeBrackets (ps : List (Int × Int)) :
    parse_body (encodeBrackets ps) = some (ps.map jpair) := by
  unfold parse_body
  have hhead : (dropLead isPyWs (encodeBrackets ps).data).head? = some '[' := by
    have hdata : (encodeBrackets ps).data
        = '[' :: (joinSep ',' (ps.map encPairB) ++ [']']) := rfl
    rw [hdata, dropLead_cons_of (by decide : isPyWs '[' = false)]
    rfl
  rw [if_pos hhead, jsonLoads_encodeBrackets]

theorem parse_coordinate_string_brackets (ps : List (Int × Int)) :
    parse_coordinate_string (.str (encodeBrackets ps)) = ps.map jpair := by
  simp [parse_coordinate_string, parse_body_encodeBrackets]

/-! ## Lemmas: the semicolon-delimited decoding -/

theorem splitOnChar_no_sep {sep : Char} : ∀ {g : List Char},
    (∀ c ∈ g, c ≠ sep) → splitOnChar sep g = [g]
  | [], _ => rfl
  | c :: t, h => by
      have hc : c ≠ sep := h c (List.mem_cons_self ..)
      have ht := splitOnChar_no_sep (g := t)
        (fun x hx => h x (List.mem_cons_of_mem _ hx))
      simp [splitOnChar, hc, ht]

theorem splitOnChar_append {sep : Char} : ∀ {g : List Char},
    (∀ c ∈ g, c ≠ sep) → ∀ rest,
    splitOnChar sep (g ++ sep :: rest) = g :: splitOnChar sep rest
  | [], _, rest => by simp [splitOnChar]
  | c :: t, h, rest => by
      have hc : c ≠ sep := h c (List.mem_cons_self ..)
      have ht := splitOnChar_append (g := t)
        (fun x hx => h x (List.mem_cons_of_mem _ hx)) rest
      simp [splitOnChar, hc, ht]

theorem splitOnChar_joinSep {sep : Char} : ∀ (gs : List (List Char)), gs ≠ [] →
    (∀ g ∈ gs, ∀ c ∈ g, c ≠ sep) → splitOnChar sep (joinSep sep gs) = gs
  | [], h, _ => absurd rfl h
  | [g], _, hall => by
      simp only [joinSep]
      exact splitOnChar_no_sep (hall g (List.mem_cons_self ..))
  | g :: g2 :: t, _, hall => by
      rw [joinSep_cons sep g (by simp),
        splitOnChar_append (hall g (List.mem_cons_self ..)) _,
        splitOnChar_joinSep (g2 :: t) (by simp)
          (fun x hx => hall x (List.mem_cons_of_mem _ hx))]

theorem hasChar_append (x : Char) (a b : List Char) :
    hasChar x (a ++ b) = (hasChar x a || hasChar x b) := by
  induction a with
  | nil => simp [hasChar]
  | cons c t ih => simp [hasChar, ih, Bool.or_assoc]

theorem hasChar_false {x : Char} : ∀ {cs : List Char},
    (∀ c ∈ cs, c ≠ x) → hasChar x cs = false
  | [], _ => rfl
  | c :: t, h => by
      have hc : c ≠ x := h c (List.mem_cons_self ..)
      have ht : hasChar x t = false :=
        hasChar_false (fun y hy => h y (List.mem_cons_of_mem _ hy))
      simp [hasChar, hc, ht]

theorem encPairS_chars (p : Int × Int) :
    ∀ c ∈ encPairS p, c = ',' ∨ c = '-' ∨ c.isDigit = true := by
  intro c hc
  unfold encPairS at hc
  rcases List.mem_append.mp hc with h1 | h2
  · rcases renderInt_chars p.1 c h1 with h | h
    · exact Or.inr (Or.inl h)
    · exact Or.inr (Or.inr h)
  · rcases List.mem_cons.mp h2 with h | h
    · exact Or.inl h
    · rcases renderInt_chars p.2 c h with h' | h'
      · exact Or.inr (Or.inl h')
      · exact Or.inr (Or.inr h')

theorem encPairS_no_semi (p : Int × Int) : ∀ c ∈ encPairS p, c ≠ ';' := by
  intro c hc
  rcases encPairS_chars p c hc with rfl | rfl | hd
  · decide
  · decide
  · exact digit_ne hd ';' (by decide)

theorem splitOnChar_encPairS (p : Int × Int) :
    splitOnChar ',' (encPairS p) = [renderInt p.1, renderInt p.2] := by
  unfold encPairS
  rw [splitOnChar_append
      (fun c hc => intHead_ne (renderInt_chars p.1 c hc) ',' (by decide) (by decide)) _,
    splitOnChar_no_sep
      (fun c hc => intHead_ne (renderInt_chars p.2 c hc) ',' (by decide) (by decide))]

theorem optMapM_map_eq {α β γ : Type} (e : α → β) (f : β → Option γ) (g : α → γ) :
    ∀ l : List α, (∀ x ∈ l, f (e x) = some (g x)) →
    optMapM f (l.map e) = some (l.map g)
  | [], _ => rfl
  | x :: t, h => by
      have hx := h x (List.mem_cons_self ..)
      have ht := optMapM_map_eq e f g t (fun y hy => h y (List.mem_cons_of_mem _ hy))
      simp [optMapM, hx, ht]

theorem optMapM_pyFloat_encPairS (p : Int × Int) :
    optMapM pyFloat (splitOnChar ',' (encPairS p)) =
      some [(p.1 : Rat), (p.2 : Rat)] := by
  rw [splitOnChar_encPairS]
  simp [optMapM, pyFloat_renderInt]

theorem parse_body_encodeSemis (p q : Int × Int) (t : List (Int × Int)) :
    parse_body (encodeSemis (p :: q :: t)) = some ((p :: q :: t).map jpair) := by
  have hdata : (encodeSemis (p :: q :: t)).data
      = joinSep ';' ((p :: q :: t).map encPairS) := rfl
  have hjoin : joinSep ';' ((p :: q :: t).map encPairS)
      = encPairS p ++ ';' :: joinSep ';' ((q :: t).map encPairS) := by
    rw [List.map_cons, joinSep_cons ';' _ (by simp)]
  obtain ⟨c1, t1, heq1, hh1⟩ := renderInt_head p.1
  have hpS : encPairS p = c1 :: (t1 ++ ',' :: renderInt p.2) := by
    rw [encPairS, heq1, List.cons_append]
  have hhead : ¬((dropLead isPyWs (encodeSemis (p :: q :: t)).data).head? = some '[') := by
    rw [hdata, hjoin, hpS, List.cons_append,
      dropLead_cons_of (intHead_not_pyWs hh1)]
    simp only [List.head?_cons, Option.some_inj]
    exact intHead_ne hh1 '[' (by decide) (by decide)
  have hsemi : hasChar ';' (encodeSemis (p :: q :: t)).data = true := by
    rw [hdata, hjoin, hasChar_append]
    simp [hasChar]
  unfold parse_body
  rw [if_neg hhead, if_pos hsemi, hdata,
    splitOnChar_joinSep ((p :: q :: t).map encPairS) (by simp)
      (fun g hg => by
        obtain ⟨x, _, rfl⟩ := List.mem_map.mp hg
        exact encPairS_no_semi x),
    optMapM_map_eq encPairS _ (fun x => [(x.1 : Rat), (x.2 : Rat)]) _
      (fun x _ => optMapM_pyFloat_encPairS x)]
  simp [jpair]

theorem parse_body_encodeSemis_one (p : Int × Int) :
    parse_body (encodeSemis [p]) = some [] := by
  have hdata : (encodeSemis [p]).data = encPairS p := by
    show (String.mk (joinSep ';' [encPairS p])).data = encPairS p
    rfl
  obtain ⟨c1, t1, heq1, hh1⟩ := renderInt_head p.1
  have hpS : encPairS p = c1 :: (t1 ++ ',' :: renderInt p.2) := by
    rw [encPairS, heq1, List.cons_append]
  have hhead : ¬((dropLead isPyWs (encodeSemis [p]).data).head? = some '[') := by
    rw [hdata, hpS, dropLead_cons_of (intHead_not_pyWs hh1)]
    simp only [List.head?_cons, Option.some_inj]
    exact intHead_ne hh1 '[' (by decide) (by decide)
  have hsemi : hasChar ';' (encodeSemis [p]).data = false := by
    rw [hdata]
    exact hasChar_false (encPairS_no_semi p)
  unfold parse_body
  rw [if_neg hhead, hsemi]
  simp

theorem parse_coordinate_string_semis (p q : Int × Int) (t : List (Int × Int)) :
    parse_coordinate_string (.str (encodeSemis (p :: q :: t)))
      = (p :: q :: t).map jpair := by
  simp [parse_coordinate_string, parse_body_encodeSemis]

theorem parse_coordinate_string_semis_one (p : Int × Int) :
    parse_coordinate_string (.str (encodeSemis [p])) = [] := by
  simp [parse_coordinate_string, parse_body_encodeSemis_one]

/-! ## Claim theorems: the coordinate parser -/

/-- C1 (amended): for every integer coordinate sequence with a number of
    pairs other than one, decoding the nested-bracket-literal encoding and
    decoding the semicolon-delimited encoding of the same data yield the
    same list of pairs (namely the sequence itself); a single-pair sequence
    is the exception recorded in the counterexample. -/
theorem c1_format_equivalence (ps : List (Int × Int)) (h : ps.length ≠ 1) :
    parse_coordinate_string (.str (encodeBrackets ps))
        = parse_coordinate_string (.str (encodeSemis ps))
      ∧ parse_coordinate_string (.str (encodeBrackets ps)) = ps.map jpair := by
  match ps, h with
  | [], _ =>
      refine ⟨?_, by simpa using parse_coordinate_string_brackets []⟩
      rfl
  | [p], h => exact absurd rfl h
  | p :: q :: t, _ =>
      exact ⟨(parse_coordinate_string_brackets _).trans
          (parse_coordinate_string_semis p q t).symm,
        parse_coordinate_string_brackets _⟩

/-- C1 counterexample: for the single-pair sequence `[(1, 2)]`, the
    nested-bracket encoding `"[[1,2]]"` decodes to the pair while the
    semicolon encoding `"1,2"` (which contains no `';'`) decodes to `[]`. -/
theorem c1_single_pair_counterexample :
    parse_coordinate_string (.str (encodeBrackets [((1 : Int), (2 : Int))]))
      ≠ parse_coordinate_string (.str (encodeSemis [((1 : Int), (2 : Int))])) := by
  rw [parse_coordinate_string_brackets, parse_coordinate_string_semis_one]
  simp

/-- Witness for `c1_format_equivalence` at the two-pair sequence. -/
theorem c1_format_equivalence_witness :
    ([((1 : Int), (1 : Int)), ((2 : Int), (2 : Int))].length ≠ 1)
      ∧ (parse_coordinate_string
            (.str (encodeBrackets [((1 : Int), (1 : Int)), ((2 : Int), (2 : Int))]))
          = parse_coordinate_string
            (.str (encodeSemis [((1 : Int), (1 : Int)), ((2 : Int), (2 : Int))]))
        ∧ parse_coordinate_string
            (.str (encodeBrackets [((1 : Int), (1 : Int)), ((2 : Int), (2 : Int))]))
          = [((1 : Int), (1 : Int)), ((2 : Int), (2 : Int))].map jpair) :=
  ⟨by decide, c1_format_equivalence _ (by decide)⟩

/-- C2 counterexample: `"[1,2,3]"` decodes to `[1, 2, 3]` — neither a list
    of (lat, lon) pairs nor the empty sequence, contradicting "any other
    shape … yields the empty sequence". -/
theorem c2_shape_counterexample :
    parse_coordinate_string (.str "[1,2,3]")
        = [JVal.num 1, JVal.num 2, JVal.num 3]
      ∧ isPairSeq (parse_coordinate_string (.str "[1,2,3]")) = false
      ∧ parse_coordinate_string (.str "[1,2,3]") ≠ [] := by
  have h : parse_coordinate_string (.str "[1,2,3]")
      = [JVal.num 1, JVal.num 2, JVal.num 3] := rfl
  refine ⟨h, ?_, ?_⟩
  · rw [h]; rfl
  · rw [h]; simp

/-- C2 (amended): a null or non-string field value decodes to `[]`; any
    failure of the try-protected body is swallowed into `[]`; and the
    example `"1,1;2,2;3,3"` decodes to `[[1,1],[2,2],[3,3]]`.  (The
    original claim's "any other shape yields the empty sequence" is
    dropped: a parsed bracket literal is returned verbatim, pairs or not,
    as the counterexample shows.) -/
theorem c2_decoding (s : String) :
    parse_coordinate_string .none = []
      ∧ parse_coordinate_string .other = []
      ∧ (parse_body s = Option.none → parse_coordinate_string (.str s) = [])
      ∧ parse_coordinate_string (.str "1,1;2,2;3,3")
          = [jpair (1, 1), jpair (2, 2), jpair (3, 3)] := by
  refine ⟨rfl, rfl, ?_, ?_⟩
  · intro h
    simp [parse_coordinate_string, h]
  · have hs : ("1,1;2,2;3,3" : String)
        = encodeSemis [((1 : Int), (1 : Int)), (2, 2), (3, 3)] := rfl
    rw [hs, parse_coordinate_string_semis]
    rfl

/-- Witness for `c2_decoding`: the body fails on `"["` (a `json.loads`
    error) and the function returns `[]` there. -/
theorem c2_decoding_witness :
    parse_body "[" = Option.none ∧ parse_coordinate_string (.str "[") = [] :=
  ⟨rfl, (c2_decoding "[").2.2.1 rfl⟩

/-- C9 counterexample: `parse_coordinate_string` does raise on an
    array-like argument — the `if pd.isna(coord_str):` test at line 24
    sits before the `try`, and on a list/array of two or more elements it
    raises `ValueError`, so the call does not return normally. -/
theorem c9_arraylike_counterexample :
    callReturned (parse_coordinate_string_call PyArg.arraylike) = false := rfl

/-- C9 (amended): on every scalar cell value — null/NaN, a string, or any
    other non-string scalar — the call returns a list and never raises:
    nulls and non-string scalars give `[]`, and every failure of the
    try-protected body (modelled as `Option.none`) is caught and mapped to
    `[]`, never surfaced.  (An array-like argument instead raises at the
    `pd.isna` test, before the `try`: see the counterexample.) -/
theorem c9_parse_total (v : PyVal) :
    parse_coordinate_string_call (.scalar v)
        = .ok (parse_coordinate_string v)
      ∧ callReturned (parse_coordinate_string_call (.scalar v)) = true
      ∧ (∀ s, v = .str s → parse_body s = Option.none →
          parse_coordinate_string v = [])
      ∧ ((v = .none ∨ v = .other) → parse_coordinate_string v = []) := by
  refine ⟨rfl, rfl, ?_, ?_⟩
  · intro s hv h
    subst hv
    simp [parse_coordinate_string, h]
  · rintro (rfl | rfl) <;> rfl

/-- Witness for `c9_parse_total`: the malformed string `"1,2;x"` (whose
    float conversion raises) decodes to `[]`. -/
theorem c9_parse_total_witness :
    parse_body "1,2;x" = Option.none
      ∧ parse_coordinate_string (.str "1,2;x") = [] :=
  ⟨rfl, (c9_parse_total (.str "1,2;x")).2.2.1 _ rfl rfl⟩

/-! ## Lemmas: layer builders -/

theorem markerRow_invalid {r : MarkerRow}
    (h : r.latitude = Option.none ∨ r.longitude = Option.none) :
    markerRowElems r = [] := by
  obtain ⟨lat, lon, n, d, i, c⟩ := r
  rcases h with h | h <;> cases h
  · rfl
  · cases lat <;> rfl

theorem heatRow_invalid {r : HeatRow}
    (h : r.latitude = Option.none ∨ r.longitude = Option.none) :
    heatRowData r = [] := by
  obtain ⟨lat, lon, i⟩ := r
  rcases h with h | h <;> cases h
  · rfl
  · cases lat <;> rfl

theorem circleRow_invalid {r : CircleRow}
    (h : r.latitude = Option.none ∨ r.longitude = Option.none) :
    circleRowElems r = [] := by
  obtain ⟨lat, lon, rad, n, d, c, fc, fo, w⟩ := r
  rcases h with h | h <;> cases h
  · rfl
  · cases lat <;> rfl

theorem lineRow_empty {r : LineRow}
    (h : parse_coordinate_string r.coordinates = []) :
    lineRowElems r = [] := by
  simp [lineRowElems, h]

theorem polygonRow_empty {r : PolygonRow}
    (h : parse_coordinate_string r.coordinates = []) :
    polygonRowElems r = [] := by
  simp [polygonRowElems, h]

theorem flatMap_nil_of {α β : Type} (f : α → List β) :
    ∀ l : List α, (∀ x ∈ l, f x = []) → l.flatMap f = []
  | [], _ => rfl
  | x :: t, h => by
      simp [List.flatMap_cons, h x (List.mem_cons_self ..),
        flatMap_nil_of f t (fun y hy => h y (List.mem_cons_of_mem _ hy))]

theorem heatData_eq : ∀ rows : List HeatRow,
    rows.flatMap heatRowData = heatTriples rows
  | [] => rfl
  | r :: t => by
      have ih := heatData_eq t
      obtain ⟨lat, lon, i⟩ := r
      cases lat <;> cases lon <;>
        simp [heatRowData, heatTriples, List.filterMap_cons, ih]

/-! ## Claim theorems: layers -/

/-- C5: for every layer type, a row with a null latitude or longitude (for
    the point layers) or an empty decoded coordinate sequence (for lines
    and polygons) contributes no rendered element at all. -/
theorem c5_invalid_row_contributes_nothing :
    (∀ r : MarkerRow, r.latitude = Option.none ∨ r.longitude = Option.none →
        markerRowElems r = [])
      ∧ (∀ r : HeatRow, r.latitude = Option.none ∨ r.longitude = Option.none →
          heatRowData r = [])
      ∧ (∀ r : CircleRow, r.latitude = Option.none ∨ r.longitude = Option.none →
          circleRowElems r = [])
      ∧ (∀ r : LineRow, parse_coordinate_string r.coordinates = [] →
          lineRowElems r = [])
      ∧ (∀ r : PolygonRow, parse_coordinate_string r.coordinates = [] →
          polygonRowElems r = []) :=
  ⟨fun _ h => markerRow_invalid h, fun _ h => heatRow_invalid h,
    fun _ h => circleRow_invalid h, fun _ h => lineRow_empty h,
    fun _ h => polygonRow_empty h⟩

/-- Witness for `c5_invalid_row_contributes_nothing`: a marker row with a
    null latitude renders nothing. -/
theorem c5_invalid_row_witness :
    markerRowElems { latitude := Option.none, longitude := some 0 } = [] :=
  c5_invalid_row_contributes_nothing.1 _ (Or.inl rfl)

/-- C4 counterexample: for the markers layer (with the clustering used by
    the composer), a sheet whose single row fails validation still adds an
    empty cluster element, while an absent sheet adds nothing. -/
theorem c4_markers_counterexample :
    add_markers (some [{ latitude := Option.none, longitude := Option.none }]) true
      ≠ add_markers Option.none true := by
  simp [add_markers, markerRowElems]

/-- C4 (amended): for the polygons, circles, heatmap and lines layers, a
    present dataset in which every row fails validation produces exactly
    the same (empty) layer content as an absent dataset; for the markers
    layer the composer's clustering still adds one empty cluster element
    when the sheet is present and non-empty. -/
theorem c4_empty_vs_absent (rows_p : List PolygonRow) (rows_c : List CircleRow)
    (rows_h : List HeatRow) (rows_l : List LineRow) (rows_m : List MarkerRow) :
    ((∀ r ∈ rows_p, parse_coordinate_string r.coordinates = []) →
        add_polygons (some rows_p) = add_polygons Option.none)
      ∧ ((∀ r ∈ rows_c, r.latitude = Option.none ∨ r.longitude = Option.none) →
          add_circles (some rows_c) = add_circles Option.none)
      ∧ ((∀ r ∈ rows_h, r.latitude = Option.none ∨ r.longitude = Option.none) →
          add_heatmap (some rows_h) = add_heatmap Option.none)
      ∧ ((∀ r ∈ rows_l, parse_coordinate_string r.coordinates = []) →
          add_lines (some rows_l) = add_lines Option.none)
      ∧ (rows_m ≠ [] →
          (∀ r ∈ rows_m, r.latitude = Option.none ∨ r.longitude = Option.none) →
          add_markers (some rows_m) true = [Elem.markerCluster []]) := by
  refine ⟨?_, ?_, ?_, ?_, ?_⟩
  · intro h
    cases rows_p with
    | nil => rfl
    | cons x t =>
        show (x :: t).flatMap polygonRowElems = []
        exact flatMap_nil_of _ _ (fun r hr => polygonRow_empty (h r hr))
  · intro h
    cases rows_c with
    | nil => rfl
    | cons x t =>
        show (x :: t).flatMap circleRowElems = []
        exact flatMap_nil_of _ _ (fun r hr => circleRow_invalid (h r hr))
  · intro h
    cases rows_h with
    | nil => rfl
    | cons x t =>
        show (match (x :: t).flatMap heatRowData with
          | [] => ([] : List Elem)
          | heat_data => [.heatLayer heat_data]) = []
        rw [flatMap_nil_of _ _ (fun r hr => heatRow_invalid (h r hr))]
  · intro h
    cases rows_l with
    | nil => rfl
    | cons x t =>
        show (x :: t).flatMap lineRowElems = []
        exact flatMap_nil_of _ _ (fun r hr => lineRow_empty (h r hr))
  · intro hne h
    cases rows_m with
    | nil => exact absurd rfl hne
    | cons x t =>
        show (if true then [Elem.markerCluster ((x :: t).flatMap markerRowElems)]
          else (x :: t).flatMap markerRowElems) = [Elem.markerCluster []]
        rw [if_pos rfl, flatMap_nil_of _ _ (fun r hr => markerRow_invalid (h r hr))]

/-- Witness for `c4_empty_vs_absent`: one all-invalid row per sheet. -/
theorem c4_empty_vs_absent_witness :
    add_polygons (some [{ coordinates := PyVal.none }]) = add_polygons Option.none
      ∧ add_markers (some [({} : MarkerRow)]) true = [Elem.markerCluster []] := by
  have h := c4_empty_vs_absent [{ coordinates := PyVal.none }] [] [] []
    [({} : MarkerRow)]
  refine ⟨h.1 ?_, h.2.2.2.2 (by simp) ?_⟩
  · intro r hr
    rw [List.mem_singleton] at hr
    subst hr
    rfl
  · intro r hr
    rw [List.mem_singleton] at hr
    subst hr
    exact Or.inl rfl

/-- C7 counterexample: a heatmap row with valid coordinates but a blank
    cell in a present `intensity` column contributes the triple
    `(lat, lon, nan)` — the unguarded `row.get('intensity', 1)` returns
    the stored NaN, so the intensity does not default to 1. -/
theorem c7_nan_intensity_counterexample :
    heatRowData
        { latitude := some 1, longitude := some 2, intensity := Cell.nan }
        = [(1, 2, PyAttr.nan)]
      ∧ (PyAttr.nan : PyAttr Rat) ≠ PyAttr.val 1 := by
  exact ⟨rfl, by simp⟩

/-- C7 (amended): `add_heatmap` collects one (lat, lon, intensity) triple
    per row with non-null coordinates — the intensity being the stored
    cell value (`nan` for a blank cell in a present column) and defaulting
    to 1 only when the intensity column is absent — and renders exactly
    one density layer holding all collected triples when at least one
    exists, no layer at all otherwise. -/
theorem c7_heatmap (rows : List HeatRow) :
    add_heatmap Option.none = []
      ∧ (heatTriples rows = [] → add_heatmap (some rows) = [])
      ∧ (heatTriples rows ≠ [] →
          add_heatmap (some rows) = [Elem.heatLayer (heatTriples rows)])
      ∧ (∀ a b : Rat,
          heatRowData
              { latitude := some a, longitude := some b,
                intensity := Cell.missing }
            = [(a, b, PyAttr.val 1)]) := by
  refine ⟨rfl, ?_, ?_, fun a b => rfl⟩
  · intro h
    cases rows with
    | nil => rfl
    | cons x t =>
        show (match (x :: t).flatMap heatRowData with
          | [] => ([] : List Elem)
          | heat_data => [.heatLayer heat_data]) = []
        rw [heatData_eq, h]
  · intro h
    cases rows with
    | nil => exact absurd rfl h
    | cons x t =>
        show (match (x :: t).flatMap heatRowData with
          | [] => ([] : List Elem)
          | heat_data => [.heatLayer heat_data])
          = [Elem.heatLayer (heatTriples (x :: t))]
        rw [heatData_eq]
        cases heq : heatTriples (x :: t) with
        | nil => exact absurd heq h
        | cons a b => rfl

/-- Witness for `c7_heatmap`: one valid row yields one density layer. -/
theorem c7_heatmap_witness :
    heatTriples [{ latitude := some 1, longitude := some 2 }] ≠ []
      ∧ add_heatmap (some [{ latitude := some 1, longitude := some 2 }])
          = [Elem.heatLayer
              (heatTriples [{ latitude := some 1, longitude := some 2 }])] :=
  ⟨by simp [heatTriples], (c7_heatmap _).2.2.1 (by simp [heatTriples])⟩

/-- C6 counterexample: a polygons sheet with a `fill_color` column whose
    cell is blank renders the polygon with fill `nan` (`Series.get`
    returns the stored NaN, not the default) — neither the outline color
    nor `"lightblue"`, contradicting the claimed fallback chain. -/
theorem c6_nan_fill_counterexample :
    (polygonRowElems
        { coordinates := PyVal.str "1,1;2,2", fill_color := Cell.nan,
          color := Cell.val "green" }).map Elem.fillColorOf
        = [some PyAttr.nan]
      ∧ (PyAttr.nan : PyAttr String) ≠ PyAttr.val "green"
      ∧ (PyAttr.nan : PyAttr String) ≠ PyAttr.val "lightblue" := by
  refine ⟨?_, by simp, by simp⟩
  have hs : ("1,1;2,2" : String)
      = encodeSemis [((1 : Int), (1 : Int)), (2, 2)] := rfl
  have hp := parse_coordinate_string_semis ((1 : Int), (1 : Int)) (2, 2) []
  simp only [polygonRowElems, hs, hp, List.map_cons]
  rfl

/-- C6 (amended): a rendered polygon's fill color is the `fill_color`
    cell's value when that column is present (with a blank cell passing
    `nan` through), otherwise the outline `color` cell's value when that
    column is present (again `nan` when blank), otherwise `"lightblue"`;
    in particular a row with no `fill_color` and `color = "green"` renders
    with fill color `"green"`. -/
theorem c6_polygon_fill (r : PolygonRow) (e : Elem) :
    (e ∈ polygonRowElems r → Elem.fillColorOf e = some (fillColorSpec r))
      ∧ (polygonRowElems
            { coordinates := PyVal.str "1,1;2,2", color := Cell.val "green" }
          ).map Elem.fillColorOf = [some (PyAttr.val "green")] := by
  constructor
  · intro he
    unfold polygonRowElems at he
    rcases hc : parse_coordinate_string r.coordinates with _ | ⟨v, vs⟩
    · rw [hc] at he
      simp at he
    · rw [hc] at he
      rw [List.mem_singleton] at he
      subst he
      show some (r.fill_color.getA (r.color.get "lightblue"))
        = some (fillColorSpec r)
      cases hfc : r.fill_color <;> cases hcol : r.color <;>
        simp [fillColorSpec, Cell.getA, Cell.get, hfc, hcol]
  · have hs : ("1,1;2,2" : String)
        = encodeSemis [((1 : Int), (1 : Int)), (2, 2)] := rfl
    have hp := parse_coordinate_string_semis ((1 : Int), (1 : Int)) (2, 2) []
    simp only [polygonRowElems, hs, hp, List.map_cons]
    rfl

/-- Witness for `c6_polygon_fill`: a polygon row with `fill_color = "pink"`
    renders with fill `"pink"` (its single element is spelled out). -/
theorem c6_polygon_fill_witness :
    Elem.fillColorOf
        (Elem.polygon ([((1 : Int), (2 : Int))].map jpair) (.val "Area")
          (.val "Area") (.val "blue") (.val "pink") (.val 0.4) (.val 2))
      = some (fillColorSpec
          { coordinates := PyVal.str (encodeBrackets [((1 : Int), (2 : Int))]),
            fill_color := Cell.val "pink" }) :=
  (c6_polygon_fill
      { coordinates := PyVal.str (encodeBrackets [((1 : Int), (2 : Int))]),
        fill_color := Cell.val "pink" } _).1
    (by
      simp only [polygonRowElems, parse_coordinate_string_brackets, List.map_cons,
        List.map_nil]
      exact List.mem_singleton.mpr rfl)

/-- C3: with no explicit center, the viewport center is the arithmetic
    mean of the non-null latitudes and longitudes gathered from the
    markers, heatmap and circles sheets; `(0, 0)` when there are none; and
    `(1, 1)` for the two-marker workbook with markers at (0,0) and (2,2). -/
theorem c3_default_center (d : ExcelData) (z : Rat) :
    (allLats d ≠ [] → allLons d ≠ [] →
        (create_map_from_excel d Option.none Option.none z).location
          = (mean (allLats d), mean (allLons d)))
      ∧ (allLats d = [] → allLons d = [] →
          (create_map_from_excel d Option.none Option.none z).location = (0, 0))
      ∧ (create_map_from_excel twoMarkerData Option.none Option.none z).location
          = (1, 1) := by
  refine ⟨?_, ?_, ?_⟩
  · intro h1 h2
    show computeCenter Option.none Option.none d = _
    unfold computeCenter
    rw [if_pos ⟨h1, h2⟩]
    rfl
  · intro h1 h2
    show computeCenter Option.none Option.none d = _
    unfold computeCenter
    rw [if_neg (fun hand => hand.1 h1)]
  · show computeCenter Option.none Option.none twoMarkerData = (1, 1)
    unfold computeCenter
    rw [if_pos (by constructor <;> simp [allLats, allLons, twoMarkerData, colVals])]
    have hlats : allLats twoMarkerData = [0, 2] := by
      simp [allLats, twoMarkerData, colVals]
    have hlons : allLons twoMarkerData = [0, 2] := by
      simp [allLons, twoMarkerData, colVals]
    rw [hlats, hlons]
    norm_num

/-- Witness for `c3_default_center` at the two-marker workbook. -/
theorem c3_default_center_witness :
    allLats twoMarkerData ≠ []
      ∧ allLons twoMarkerData ≠ []
      ∧ (create_map_from_excel twoMarkerData Option.none Option.none 10).location
          = (mean (allLats twoMarkerData), mean (allLons twoMarkerData)) := by
  refine ⟨?_, ?_, ?_⟩
  · simp [allLats, twoMarkerData, colVals]
  · simp [allLons, twoMarkerData, colVals]
  · exact (c3_default_center twoMarkerData 10).1
      (by simp [allLats, twoMarkerData, colVals])
      (by simp [allLons, twoMarkerData, colVals])

/-- C10: when exactly one of `center_lat`, `center_lon` is supplied, the
    supplied half is discarded — the whole composed map equals the map
    built with no explicit center at all. -/
theorem c10_partial_center_ignored (d : ExcelData) (x : Rat) (z : Rat) :
    create_map_from_excel d (some x) Option.none z
        = create_map_from_excel d Option.none Option.none z
      ∧ create_map_from_excel d Option.none (some x) z
        = create_map_from_excel d Option.none Option.none z := by
  constructor <;> rfl

/-! ## Lemmas: layer tags for the composition order -/

theorem layerIdx_markerRow {r : MarkerRow} {e : Elem}
    (he : e ∈ markerRowElems r) : layerIdx e = some 0 := by
  obtain ⟨lat, lon, n, d, i, c⟩ := r
  cases lat <;> cases lon <;> simp [markerRowElems] at he
  subst he
  rfl

theorem layerIdx_add_markers (df : Option (List MarkerRow)) (b : Bool) :
    ∀ x ∈ (add_markers df b).filterMap layerIdx, x = 0 := by
  intro x hx
  rw [List.mem_filterMap] at hx
  obtain ⟨e, he, hfe⟩ := hx
  have h0 : layerIdx e = some 0 := by
    cases df with
    | none => simp [add_markers] at he
    | some rows =>
        cases rows with
        | nil => simp [add_markers] at he
        | cons r t =>
            cases b with
            | true =>
                rw [show add_markers (some (r :: t)) true
                    = [Elem.markerCluster ((r :: t).flatMap markerRowElems)]
                    from rfl] at he
                rw [List.mem_singleton] at he
                subst he
                rfl
            | false =>
                rw [show add_markers (some (r :: t)) false
                    = (r :: t).flatMap markerRowElems from rfl] at he
                obtain ⟨r2, _, he2⟩ := List.mem_flatMap.mp he
                exact layerIdx_markerRow he2
  rw [h0, Option.some_inj] at hfe
  omega

theorem layerIdx_polygonRow {r : PolygonRow} {e : Elem}
    (he : e ∈ polygonRowElems r) : layerIdx e = some 1 := by
  unfold polygonRowElems at he
  rcases hc : parse_coordinate_string r.coordinates with _ | ⟨v, vs⟩
  · rw [hc] at he
    simp at he
  · rw [hc] at he
    rw [List.mem_singleton] at he
    subst he
    rfl

theorem layerIdx_add_polygons (df : Option (List PolygonRow)) :
    ∀ x ∈ (add_polygons df).filterMap layerIdx, x = 1 := by
  intro x hx
  rw [List.mem_filterMap] at hx
  obtain ⟨e, he, hfe⟩ := hx
  have h0 : layerIdx e = some 1 := by
    cases df with
    | none => simp [add_polygons] at he
    | some rows =>
        cases rows with
        | nil => simp [add_polygons] at he
        | cons r t =>
            simp only [add_polygons, List.mem_flatMap] at he
            obtain ⟨r2, _, he2⟩ := he
            exact layerIdx_polygonRow he2
  rw [h0, Option.some_inj] at hfe
  omega

theorem layerIdx_circleRow {r : CircleRow} {e : Elem}
    (he : e ∈ circleRowElems r) : layerIdx e = some 2 := by
  obtain ⟨lat, lon, rad, n, d, c, fc, fo, w⟩ := r
  cases lat <;> cases lon <;> simp [circleRowElems] at he
  subst he
  rfl

theorem layerIdx_add_circles (df : Option (List CircleRow)) :
    ∀ x ∈ (add_circles df).filterMap layerIdx, x = 2 := by
  intro x hx
  rw [List.mem_filterMap] at hx
  obtain ⟨e, he, hfe⟩ := hx
  have h0 : layerIdx e = some 2 := by
    cases df with
    | none => simp [add_circles] at he
    | some rows =>
        cases rows with
        | nil => simp [add_circles] at he
        | cons r t =>
            simp only [add_circles, List.mem_flatMap] at he
            obtain ⟨r2, _, he2⟩ := he
            exact layerIdx_circleRow he2
  rw [h0, Option.some_inj] at hfe
  omega

theorem layerIdx_add_heatmap (df : Option (List HeatRow)) :
    ∀ x ∈ (add_heatmap df).filterMap layerIdx, x = 3 := by
  intro x hx
  rw [List.mem_filterMap] at hx
  obtain ⟨e, he, hfe⟩ := hx
  have h0 : layerIdx e = some 3 := by
    cases df with
    | none => simp [add_heatmap] at he
    | some rows =>
        cases rows with
        | nil => simp [add_heatmap] at he
        | cons r t =>
            have hshow : add_heatmap (some (r :: t))
                = (match (r :: t).flatMap heatRowData with
                   | [] => ([] : List Elem)
                   | heat_data => [.heatLayer heat_data]) := rfl
            rw [hshow] at he
            cases hq : (r :: t).flatMap heatRowData with
            | nil =>
                rw [hq] at he
                simp at he
            | cons a b =>
                rw [hq] at he
                rw [List.mem_singleton] at he
                subst he
                rfl
  rw [h0, Option.some_inj] at hfe
  omega

theorem layerIdx_lineRow {r : LineRow} {e : Elem}
    (he : e ∈ lineRowElems r) : layerIdx e = some 4 := by
  unfold lineRowElems at he
  rcases hc : parse_coordinate_string r.coordinates with _ | ⟨v, vs⟩
  · rw [hc] at he
    simp at he
  · rw [hc] at he
    rw [List.mem_singleton] at he
    subst he
    rfl

theorem layerIdx_add_lines (df : Option (List LineRow)) :
    ∀ x ∈ (add_lines df).filterMap layerIdx, x = 4 := by
  intro x hx
  rw [List.mem_filterMap] at hx
  obtain ⟨e, he, hfe⟩ := hx
  have h0 : layerIdx e = some 4 := by
    cases df with
    | none => simp [add_lines] at he
    | some rows =>
        cases rows with
        | nil => simp [add_lines] at he
        | cons r t =>
            simp only [add_lines, List.mem_flatMap] at he
            obtain ⟨r2, _, he2⟩ := he
            exact layerIdx_lineRow he2
  rw [h0, Option.some_inj] at hfe
  omega

theorem pairwise_le_of_const {a : Nat} : ∀ {l : List Nat},
    (∀ x ∈ l, x = a) → l.Pairwise (· ≤ ·)
  | [], _ => List.Pairwise.nil
  | x :: t, h => by
      constructor
      · intro y hy
        rw [h x (List.mem_cons_self ..), h y (List.mem_cons_of_mem _ hy)]
      · exact pairwise_le_of_const (fun y hy => h y (List.mem_cons_of_mem _ hy))

theorem sorted_blocks {A B C D E : List Nat}
    (hA : ∀ x ∈ A, x = 0) (hB : ∀ x ∈ B, x = 1) (hC : ∀ x ∈ C, x = 2)
    (hD : ∀ x ∈ D, x = 3) (hE : ∀ x ∈ E, x = 4) :
    (A ++ B ++ C ++ D ++ E).Pairwise (· ≤ ·) := by
  refine List.pairwise_append.mpr ⟨List.pairwise_append.mpr
    ⟨List.pairwise_append.mpr ⟨List.pairwise_append.mpr
      ⟨pairwise_le_of_const hA, pairwise_le_of_const hB, ?_⟩,
      pairwise_le_of_const hC, ?_⟩,
    pairwise_le_of_const hD, ?_⟩, pairwise_le_of_const hE, ?_⟩
  · intro a ha b hb
    rw [hA a ha, hB b hb]
    omega
  · intro a ha b hb
    rcases List.mem_append.mp ha with h | h
    · rw [hA a h, hC b hb]; omega
    · rw [hB a h, hC b hb]; omega
  · intro a ha b hb
    rcases List.mem_append.mp ha with h | h
    · rcases List.mem_append.mp h with h2 | h2
      · rw [hA a h2, hD b hb]; omega
      · rw [hB a h2, hD b hb]; omega
    · rw [hC a h, hD b hb]; omega
  · intro a ha b hb
    rcases List.mem_append.mp ha with h | h
    · rcases List.mem_append.mp h with h2 | h2
      · rcases List.mem_append.mp h2 with h3 | h3
        · rw [hA a h3, hE b hb]; omega
        · rw [hB a h3, hE b hb]; omega
      · rw [hC a h2, hE b hb]; omega
    · rw [hD a h, hE b hb]; omega

/-- C8: the composed map's layer elements occur in the fixed builder order
    markers, polygons, circles, heatmap, lines: the element sequence
    decomposes into those five blocks in that order, so the layer tags read
    off the map are sorted. -/
theorem c8_layer_order (d : ExcelData) (clat clon : Option Rat) (z : Rat) :
    (create_map_from_excel d clat clon z).elems.filterMap layerIdx
        = (add_markers d.markers true).filterMap layerIdx
          ++ (add_polygons d.polygons).filterMap layerIdx
          ++ (add_circles d.circles).filterMap layerIdx
          ++ (add_heatmap d.heatmap).filterMap layerIdx
          ++ (add_lines d.lines).filterMap layerIdx
      ∧ List.Sorted (· ≤ ·)
          ((create_map_from_excel d clat clon z).elems.filterMap layerIdx) := by
  have helems : (create_map_from_excel d clat clon z).elems
      = [Elem.tileLayer "CartoDB positron", Elem.tileLayer "CartoDB dark_matter"]
        ++ add_markers d.markers true ++ add_polygons d.polygons
        ++ add_circles d.circles ++ add_heatmap d.heatmap ++ add_lines d.lines
        ++ [Elem.layerControl,
            Elem.circleMarker (computeCenter clat clon d) 12 "yellow" "yellow"
              0.6 "✨ Center Glow ✨"] := rfl
  have hdecomp : (create_map_from_excel d clat clon z).elems.filterMap layerIdx
      = (add_markers d.markers true).filterMap layerIdx
        ++ (add_polygons d.polygons).filterMap layerIdx
        ++ (add_circles d.circles).filterMap layerIdx
        ++ (add_heatmap d.heatmap).filterMap layerIdx
        ++ (add_lines d.lines).filterMap layerIdx := by
    rw [helems]
    simp [List.filterMap_append, layerIdx]
  refine ⟨hdecomp, ?_⟩
  rw [hdecomp]
  exact sorted_blocks (layerIdx_add_markers d.markers true)
    (layerIdx_add_polygons d.polygons) (layerIdx_add_circles d.circles)
    (layerIdx_add_heatmap d.heatmap) (layerIdx_add_lines d.lines)

end Assignment2
